import Mathlib

/-!
Verification of the latent-variable CRF layer (`problems/latent_crf.py`).

The grid arrays of the Python code are flattened to per-node lists:
an observation `x` is a list of per-node feature rows (`List (List ℚ)`),
a label map `y` and a hidden map `h` are lists of naturals, and a weight
vector `w` is a list of rationals.  All the operations the claims touch
are elementwise over nodes, so the flattening is faithful.

The code is Python 2 era numpy: `h / k` on integer arrays is floor
division, which maps to `Nat.div` here.  `LatentGridCRF.latent` and
`LatentDirectionalGridCRF.latent` have textually identical bodies except
for which base class performs the delegated inference call; the base
inference routine is not part of the verified sources, so it enters the
model as an explicit `oracle` function parameter and theorems quantify
over it, covering both classes at once.
-/

namespace PyStruct

/-- `np.sign` on a rational. -/
def npSign (q : ℚ) : ℚ := if 0 < q then 1 else if q < 0 then -1 else 0

/-- `np.repeat(row, k)` along the last axis: each feature value of one
node's row is repeated `k` times consecutively. -/
def npRepeatRow (k : Nat) (row : List ℚ) : List ℚ :=
  row.flatMap (fun v => List.replicate k v)

/-- `np.repeat(x, n_states_per_label, axis=-1)` over all nodes. -/
def npRepeat (k : Nat) (x : List (List ℚ)) : List (List ℚ) :=
  x.map (npRepeatRow k)

/-- The latent grid CRF model configuration: `n_labels` visible labels,
each split into `n_states_per_label` hidden sub-states (the integer form
of the constructor argument; see `pyIntTimesList` for the list form). -/
structure LatentGridCRF where
  n_labels : Nat
  n_states_per_label : Nat

/-- `n_states = n_labels * n_states_per_label` as set by
`LatentGridCRF.__init__` for an integer `n_states_per_label`. -/
def LatentGridCRF.n_states (m : LatentGridCRF) : Nat :=
  m.n_labels * m.n_states_per_label

/-- Modelled from the spec: `GridCRF.get_unary_weights` is not among the
verified sources; per the data model the weight vector is partitioned
with the unary block first, one scalar per state, so the unary weights
are the first `n_states` entries of `w`. -/
def get_unary_weights (n_states : Nat) (w : List ℚ) : List ℚ :=
  w.take n_states

/-- `unary_params[unary_params == 0] = 1e-10`: replace every zero entry
by the literal `1e-10`. -/
def fixZeros (l : List ℚ) : List ℚ :=
  l.map (fun v => if v = 0 then 1 / 10 ^ 10 else v)

/-- The `unary_params` local of `LatentCRF.loss_augment`:
`w[:self.n_states].copy()` with zeros replaced by `1e-10`. -/
def LatentGridCRF.unary_params (m : LatentGridCRF) (w : List ℚ) : List ℚ :=
  fixZeros (w.take m.n_states)

/-- One node's row after the loss-augmentation loop
`for s in np.arange(n_states): x_wide[h/k != s/k, s] += 1/unary_params[s]`.
The row updates of distinct nodes are independent, so the loop is stated
per node: state `s` of a node whose hidden value is `hi` is boosted
exactly when the label group `hi / k` of the node differs from the label
group `s / k` owning state `s`. -/
def augmentRow (k n_states : Nat) (up : List ℚ) (hi : Nat) (row : List ℚ) : List ℚ :=
  (List.range n_states).map (fun s =>
    if hi / k ≠ s / k then row.getD s 0 + 1 / up.getD s 0 else row.getD s 0)

/-- The whole augmentation loop of `loss_augment` over all nodes of the
already repeated `x_wide`, given the already fixed `unary_params`. -/
def augmentData (m : LatentGridCRF) (up : List ℚ) (h : List Nat)
    (xw : List (List ℚ)) : List (List ℚ) :=
  (xw.zip h).map (fun p => augmentRow m.n_states_per_label m.n_states up p.2 p.1)

/-- The pure value computed by `LatentCRF.loss_augment(x, h, w)`
(see `loss_augment_st` for the buffer-level version). -/
def LatentGridCRF.loss_augment (m : LatentGridCRF) (x : List (List ℚ))
    (h : List Nat) (w : List ℚ) : List (List ℚ) :=
  augmentData m (m.unary_params w) h (npRepeat m.n_states_per_label x)

/-- `LatentGridCRF.loss(h, h_hat) = np.sum(h / k != h_hat / k)`:
elementwise floor-divide both hidden maps by `n_states_per_label`,
compare, and sum the disagreement booleans. -/
def LatentGridCRF.loss (m : LatentGridCRF) (h hhat : List Nat) : Nat :=
  (List.zipWith
    (fun a b => decide (a / m.n_states_per_label ≠ b / m.n_states_per_label))
    h hhat).count true

/-- One node's row of `x_wide` after the assignment
`x_wide[other_states] = (-1000 * np.sign(unary_params) * np.ones(shape))[other_states]`
inside `latent(x, y, w)`: state `s` is an "other" state for a node whose
visible label is `yi` when its owning label `s / n_states_per_label`
differs from `yi`; such an entry becomes `-1000 * sign(unary_params[s])`
(the broadcast of the sign vector over nodes), while consistent states
keep their value from the repeated feature row. -/
def latentXwideRow (m : LatentGridCRF) (up : List ℚ) (yi : Nat) (row : List ℚ) : List ℚ :=
  (List.range m.n_states).map (fun s =>
    if s / m.n_states_per_label ≠ yi then -1000 * npSign (up.getD s 0) else row.getD s 0)

/-- The `x_wide` array handed to the delegated base-class inference call
inside `latent(x, y, w)`: `np.repeat(x, k, axis=-1)` with the
inconsistent-state entries overwritten per `latentXwideRow`. -/
def latentXwide (m : LatentGridCRF) (x : List (List ℚ)) (y : List Nat)
    (w : List ℚ) : List (List ℚ) :=
  ((npRepeat m.n_states_per_label x).zip y).map
    (fun p => latentXwideRow m (get_unary_weights m.n_states w) p.2 p.1)

/-- `latent(x, y, w)` of `LatentGridCRF` / `LatentDirectionalGridCRF`
(identical bodies; the delegated base inference is the `oracle`
parameter).  After inference on the clamped `x_wide`, the consistency
check `(h / n_states_per_label != y).any()` decides whether to keep `h`
or fall back to `y * n_states_per_label`; the returned flag records
whether the `"inconsistent h and y"` diagnostic was printed, which the
code does only on the `np.any(w)` branch of the fallback. -/
def LatentGridCRF.latent (m : LatentGridCRF)
    (oracle : List (List ℚ) → List ℚ → List Nat)
    (x : List (List ℚ)) (y : List Nat) (w : List ℚ) : List Nat × Bool :=
  let h := oracle (latentXwide m x y w) w
  if (h.zip y).any (fun p => decide (p.1 / m.n_states_per_label ≠ p.2)) then
    if w.any (fun v => decide (v ≠ 0)) then
      (y.map (fun yi => yi * m.n_states_per_label), true)
    else
      (y.map (fun yi => yi * m.n_states_per_label), false)
  else (h, false)

/-- Hamming distance between two label maps, written from the spec's
words: the count of positions where the maps disagree. -/
def hammingDist : List Nat → List Nat → Nat
  | a :: as, b :: bs => (if a = b then 0 else 1) + hammingDist as bs
  | _, _ => 0

/-- C6: `loss(h, h_hat)` is the Hamming distance between the two hidden
maps after collapsing each hidden state to its owning visible label by
floor division by `n_states_per_label`. -/
theorem loss_eq_hammingDist_collapsed (m : LatentGridCRF) (h hhat : List Nat) :
    m.loss h hhat =
      hammingDist (h.map (fun v => v / m.n_states_per_label))
        (hhat.map (fun v => v / m.n_states_per_label)) := by
  induction h generalizing hhat with
  | nil => cases hhat <;> simp [LatentGridCRF.loss, hammingDist]
  | cons a as ih =>
    cases hhat with
    | nil => simp [LatentGridCRF.loss, hammingDist]
    | cons b bs =>
      have hrec := ih bs
      simp only [LatentGridCRF.loss, List.zipWith_cons_cons, List.count_cons,
        List.map_cons, hammingDist, decide_not] at hrec ⊢
      by_cases hab : a / m.n_states_per_label = b / m.n_states_per_label <;>
        simp [hab, hrec, Nat.add_comm]

/-- C7: the latent loss is symmetric, and the loss of a hidden map
against itself is zero. -/
theorem loss_symm_and_self (m : LatentGridCRF) :
    (∀ h hhat : List Nat, m.loss h hhat = m.loss hhat h) ∧
      (∀ h : List Nat, m.loss h h = 0) := by
  constructor
  · intro h hhat
    induction h generalizing hhat with
    | nil => cases hhat <;> simp [LatentGridCRF.loss]
    | cons a as ih =>
      cases hhat with
      | nil => simp [LatentGridCRF.loss]
      | cons b bs =>
        have hrec := ih bs
        simp only [LatentGridCRF.loss, List.zipWith_cons_cons, List.count_cons,
          decide_not] at hrec ⊢
        by_cases hab : a / m.n_states_per_label = b / m.n_states_per_label
        · simp [hab, hrec]
        · simp [hab, Ne.symm hab, hrec]
  · intro h
    induction h with
    | nil => simp [LatentGridCRF.loss]
    | cons a as ih =>
      simp only [LatentGridCRF.loss, List.zipWith_cons_cons, List.count_cons,
        decide_not] at ih ⊢
      simpa using ih

/-- C1: for every oracle (hence for both `LatentGridCRF.latent` and
`LatentDirectionalGridCRF.latent`), every `x`, every `y` and every `w`
(zero or not), the assignment returned by `latent(x, y, w)` collapses to
`y` under floor division by `n_states_per_label` at every node. -/
theorem latent_consistent (m : LatentGridCRF)
    (oracle : List (List ℚ) → List ℚ → List Nat)
    (x : List (List ℚ)) (y : List Nat) (w : List ℚ)
    (hk : 0 < m.n_states_per_label)
    (hlen : (oracle (latentXwide m x y w) w).length = y.length) :
    (m.latent oracle x y w).1.map (fun v => v / m.n_states_per_label) = y := by
  have hfb : (y.map (fun yi => yi * m.n_states_per_label)).map
      (fun v => v / m.n_states_per_label) = y := by
    rw [List.map_map]
    have hcomp : ((fun v => v / m.n_states_per_label) ∘
        fun yi => yi * m.n_states_per_label) = id := by
      funext v
      exact Nat.mul_div_cancel v hk
    rw [hcomp, List.map_id]
  simp only [LatentGridCRF.latent]
  split
  case isTrue hbad =>
    split
    · exact hfb
    · exact hfb
  case isFalse hbad =>
    apply List.ext_getElem
    · simpa using hlen
    · intro n h1 h2
      have hn : n < (oracle (latentXwide m x y w) w).length := by simpa using h1
      have hnz : n < ((oracle (latentXwide m x y w) w).zip y).length := by
        simpa using ⟨hn, h2⟩
      have hmem : ((oracle (latentXwide m x y w) w)[n], y[n]) ∈
          (oracle (latentXwide m x y w) w).zip y := by
        have hz := @List.getElem_zip _ _ (oracle (latentXwide m x y w) w) y n hnz
        exact hz ▸ List.getElem_mem hnz
      have hcons := List.any_eq_false.mp (Bool.not_eq_true _ ▸ hbad) _ hmem
      simp only [decide_eq_true_eq, not_not] at hcons
      simpa using hcons

/-- Witness for C1 at a concrete input: an oracle answering `[5]` is
inconsistent with `y = [0]` for two states per label, so the fallback
fires and the collapsed result is `y`. -/
theorem latent_consistent_witness :
    0 < (2:Nat) ∧
      (LatentGridCRF.latent ⟨2, 2⟩ (fun _ _ => [5]) [[(1:ℚ), 2]] [0] [1]).1.map
        (fun v => v / 2) = [0] :=
  ⟨by decide,
    latent_consistent ⟨2, 2⟩ (fun _ _ => [5]) [[(1:ℚ), 2]] [0] [1]
      (by decide) (by decide)⟩

/-- C2: when the oracle's assignment is inconsistent with `y` and `w` has
a nonzero entry, `latent` prints the `"inconsistent h and y"` diagnostic
(the `true` flag) and deterministically returns the trivial consistent
assignment `y * n_states_per_label`. -/
theorem latent_inconsistent_reports (m : LatentGridCRF)
    (oracle : List (List ℚ) → List ℚ → List Nat)
    (x : List (List ℚ)) (y : List Nat) (w : List ℚ)
    (hw : w.any (fun v => decide (v ≠ 0)) = true)
    (hbad : ((oracle (latentXwide m x y w) w).zip y).any
        (fun p => decide (p.1 / m.n_states_per_label ≠ p.2)) = true) :
    m.latent oracle x y w =
      (y.map (fun yi => yi * m.n_states_per_label), true) := by
  simp only [LatentGridCRF.latent]
  rw [if_pos hbad, if_pos hw]

/-- Witness for C2 at a concrete input. -/
theorem latent_inconsistent_reports_witness :
    ([(1:ℚ)].any (fun v => decide (v ≠ 0)) = true) ∧
      LatentGridCRF.latent ⟨2, 1⟩ (fun _ _ => [1]) [[(3:ℚ), 4]] [0] [(1:ℚ)] =
        ([0].map (fun yi => yi * 1), true) := by
  have hw : ([(1:ℚ)].any (fun v => decide (v ≠ 0)) = true) := by norm_num
  exact ⟨hw,
    latent_inconsistent_reports ⟨2, 1⟩ (fun _ _ => [1]) [[(3:ℚ), 4]] [0] [(1:ℚ)]
      hw (by decide)⟩

/-- C10: when every entry of `w` is zero and the oracle's assignment is
inconsistent with `y`, `latent` returns `y * n_states_per_label` without
printing the diagnostic (the `false` flag): the report is tied to the
`np.any(w)` test. -/
theorem latent_zero_w_silent (m : LatentGridCRF)
    (oracle : List (List ℚ) → List ℚ → List Nat)
    (x : List (List ℚ)) (y : List Nat) (w : List ℚ)
    (hw : w.any (fun v => decide (v ≠ 0)) = false)
    (hbad : ((oracle (latentXwide m x y w) w).zip y).any
        (fun p => decide (p.1 / m.n_states_per_label ≠ p.2)) = true) :
    m.latent oracle x y w =
      (y.map (fun yi => yi * m.n_states_per_label), false) := by
  simp only [LatentGridCRF.latent]
  rw [if_pos hbad, if_neg (by rw [hw]; simp)]

/-- Witness for C10 at a concrete input with the all-zero weight vector. -/
theorem latent_zero_w_silent_witness :
    ([(0:ℚ), 0].any (fun v => decide (v ≠ 0)) = false) ∧
      LatentGridCRF.latent ⟨2, 1⟩ (fun _ _ => [1]) [[(3:ℚ), 4]] [0] [(0:ℚ), 0] =
        ([0].map (fun yi => yi * 1), false) := by
  have hw : ([(0:ℚ), 0].any (fun v => decide (v ≠ 0)) = false) := by norm_num
  exact ⟨hw,
    latent_zero_w_silent ⟨2, 1⟩ (fun _ _ => [1]) [[(3:ℚ), 4]] [0] [(0:ℚ), 0]
      hw (by decide)⟩

/-- C3 counterexample: the clamp written into `x_wide` for a state
inconsistent with `y[node]` is `-1000 * sign(unary_params[s])`, not a very
large negative value.  At node 0 of `y = [0]` with one state per label,
state 1 is inconsistent; with `w = [0, 0]` its entry is `0`, and with
`w = [3, -4]` its entry is `+1000` — in neither case is the entry
negative, so the oracle is not blocked from choosing the state. -/
theorem latent_clamp_counterexample :
    ((latentXwide ⟨2, 1⟩ [[(5:ℚ), 7]] [0] [0, 0]).getD 0 []).getD 1 0 = 0 ∧
      ¬ ((latentXwide ⟨2, 1⟩ [[(5:ℚ), 7]] [0] [0, 0]).getD 0 []).getD 1 0 < 0 ∧
      ((latentXwide ⟨2, 1⟩ [[(5:ℚ), 7]] [0] [3, -4]).getD 0 []).getD 1 0 = 1000 ∧
      ¬ ((latentXwide ⟨2, 1⟩ [[(5:ℚ), 7]] [0] [3, -4]).getD 0 []).getD 1 0 < 0 := by
  refine ⟨?_, ?_, ?_, ?_⟩ <;>
    norm_num [latentXwide, latentXwideRow, npRepeat, npRepeatRow,
      get_unary_weights, npSign, LatentGridCRF.n_states, List.range_succ]

/-- C3 amended: for every state `s` inconsistent with `y[node]`, the
`x_wide` entry is set to `-1000 * sign(unary_params[s])`; consequently the
effective unary potential of that state, entry times weight, equals
`-1000 * |w[s]|` — strictly negative whenever `w[s] ≠ 0` (so the oracle
cannot prefer the state on unary score), and `0` when `w[s] = 0` (the
zero-weight case handled by the fallback of `latent`). -/
theorem latent_clamp_amended (m : LatentGridCRF)
    (x : List (List ℚ)) (y : List Nat) (w : List ℚ) (i s : Nat)
    (hix : i < x.length) (hiy : i < y.length) (hs : s < m.n_states)
    (hother : s / m.n_states_per_label ≠ y.getD i 0) :
    ((latentXwide m x y w).getD i []).getD s 0 =
        -1000 * npSign ((w.take m.n_states).getD s 0) ∧
      ((latentXwide m x y w).getD i []).getD s 0 * (w.take m.n_states).getD s 0 =
        -1000 * |(w.take m.n_states).getD s 0| ∧
      ((w.take m.n_states).getD s 0 ≠ 0 →
        ((latentXwide m x y w).getD i []).getD s 0 * (w.take m.n_states).getD s 0 < 0) := by
  have hixr : i < (npRepeat m.n_states_per_label x).length := by
    simpa [npRepeat] using hix
  have hiz : i < ((npRepeat m.n_states_per_label x).zip y).length := by
    simpa using ⟨hixr, hiy⟩
  have hentry : ((latentXwide m x y w).getD i []).getD s 0 =
      -1000 * npSign ((w.take m.n_states).getD s 0) := by
    have hrow : (latentXwide m x y w).getD i [] =
        latentXwideRow m (get_unary_weights m.n_states w) y[i]
          ((npRepeat m.n_states_per_label x).zip y)[i].1 := by
      rw [latentXwide, List.getD_eq_getElem _ _ (by simpa using hiz),
        List.getElem_map, List.getElem_zip]
    rw [hrow, latentXwideRow,
      List.getD_eq_getElem _ _ (by simpa using hs), List.getElem_map,
      List.getElem_range,
      if_pos (by rwa [List.getD_eq_getElem _ _ hiy] at hother),
      get_unary_weights]
  refine ⟨hentry, ?_, ?_⟩
  · rw [hentry]
    rcases lt_trichotomy ((w.take m.n_states).getD s 0) 0 with hlt | heq | hgt
    · rw [npSign, if_neg (by linarith), if_pos hlt, abs_of_neg hlt]
      ring
    · rw [heq, npSign]
      norm_num
    · rw [npSign, if_pos hgt, abs_of_pos hgt]
      ring
  · intro hne
    rw [hentry]
    rcases lt_trichotomy ((w.take m.n_states).getD s 0) 0 with hlt | heq | hgt
    · rw [npSign, if_neg (by linarith), if_pos hlt]
      nlinarith
    · exact absurd heq hne
    · rw [npSign, if_pos hgt]
      nlinarith

/-- Witness for the amended C3 at a concrete input with a nonzero weight:
state 1 is inconsistent with `y = [0]`, its entry is `-1000 * sign 4`, and
entry times weight is `-1000 * |4| < 0`. -/
theorem latent_clamp_amended_witness :
    0 < [[(5:ℚ), 7]].length ∧ 0 < [(0:Nat)].length ∧
      1 < (LatentGridCRF.n_states ⟨2, 1⟩) ∧ 1 / 1 ≠ [(0:Nat)].getD 0 0 ∧
      (((latentXwide ⟨2, 1⟩ [[(5:ℚ), 7]] [0] [3, 4]).getD 0 []).getD 1 0 =
          -1000 * npSign (([(3:ℚ), 4].take (LatentGridCRF.n_states ⟨2, 1⟩)).getD 1 0) ∧
        ((latentXwide ⟨2, 1⟩ [[(5:ℚ), 7]] [0] [3, 4]).getD 0 []).getD 1 0 *
            ([(3:ℚ), 4].take (LatentGridCRF.n_states ⟨2, 1⟩)).getD 1 0 =
          -1000 * |([(3:ℚ), 4].take (LatentGridCRF.n_states ⟨2, 1⟩)).getD 1 0| ∧
        (([(3:ℚ), 4].take (LatentGridCRF.n_states ⟨2, 1⟩)).getD 1 0 ≠ 0 →
          ((latentXwide ⟨2, 1⟩ [[(5:ℚ), 7]] [0] [3, 4]).getD 0 []).getD 1 0 *
            ([(3:ℚ), 4].take (LatentGridCRF.n_states ⟨2, 1⟩)).getD 1 0 < 0)) :=
  ⟨by decide, by decide, by decide, by decide,
    latent_clamp_amended ⟨2, 1⟩ [[(5:ℚ), 7]] [0] [3, 4] 0 1
      (by decide) (by decide) (by decide) (by decide)⟩

/-- C4: `loss_augment(x, h, w)` returns the state-width expansion of `x`
in which the entry of node `i` at state `s` is boosted by
`1 / unary_weight[s]` exactly when the sub-label group `s / k` of `s`
differs from the sub-label group `h[i] / k` of the node's hidden value,
a zero `unary_weight[s]` being first replaced by the epsilon `1e-10`;
same-group entries are the unmodified expanded values. -/
theorem loss_augment_boosts (m : LatentGridCRF) (x : List (List ℚ))
    (h : List Nat) (w : List ℚ) (i s : Nat)
    (hix : i < x.length) (hih : i < h.length) (hs : s < m.n_states)
    (hws : m.n_states ≤ w.length) :
    ((m.loss_augment x h w).getD i []).getD s 0 =
      if h.getD i 0 / m.n_states_per_label ≠ s / m.n_states_per_label then
        ((npRepeat m.n_states_per_label x).getD i []).getD s 0 +
          1 / (if w.getD s 0 = 0 then (1:ℚ) / 10 ^ 10 else w.getD s 0)
      else ((npRepeat m.n_states_per_label x).getD i []).getD s 0 := by
  have hixr : i < (npRepeat m.n_states_per_label x).length := by
    simpa [npRepeat] using hix
  have hiz : i < ((npRepeat m.n_states_per_label x).zip h).length := by
    simpa using ⟨hixr, hih⟩
  have hsw : s < w.length := lt_of_lt_of_le hs hws
  have hst : s < (w.take m.n_states).length := by
    simp [List.length_take]
    exact ⟨hs, hsw⟩
  have hup : (m.unary_params w).getD s 0 =
      if w.getD s 0 = 0 then (1:ℚ) / 10 ^ 10 else w.getD s 0 := by
    rw [LatentGridCRF.unary_params, fixZeros,
      List.getD_eq_getElem _ _ (by simpa using hst), List.getElem_map,
      List.getElem_take, List.getD_eq_getElem _ _ hsw]
  have hrow : (m.loss_augment x h w).getD i [] =
      augmentRow m.n_states_per_label m.n_states (m.unary_params w)
        ((npRepeat m.n_states_per_label x).zip h)[i].2
        ((npRepeat m.n_states_per_label x).zip h)[i].1 := by
    rw [LatentGridCRF.loss_augment, augmentData,
      List.getD_eq_getElem _ _ (by simpa using hiz), List.getElem_map]
  rw [hrow, augmentRow, List.getD_eq_getElem _ _ (by simpa using hs),
    List.getElem_map, List.getElem_range, List.getElem_zip, hup,
    List.getD_eq_getElem _ _ hih]
  have hopt : (npRepeat m.n_states_per_label x)[i]? =
      some (npRepeat m.n_states_per_label x)[i] := List.getElem?_eq_getElem hixr
  simp [hopt]

/-- Witness for C4 at a concrete input: node 0 carries hidden value 0,
state 1 belongs to the other label group, its unary weight is 0, so the
expanded entry 3 becomes `3 + 1/1e-10`. -/
theorem loss_augment_boosts_witness :
    0 < [[(2:ℚ), 3]].length ∧ 0 < [(0:Nat)].length ∧
      1 < LatentGridCRF.n_states ⟨2, 1⟩ ∧
      LatentGridCRF.n_states ⟨2, 1⟩ ≤ [(5:ℚ), 0].length ∧
      ((LatentGridCRF.loss_augment ⟨2, 1⟩ [[(2:ℚ), 3]] [0] [(5:ℚ), 0]).getD 0 []).getD 1 0 =
        if [(0:Nat)].getD 0 0 / 1 ≠ 1 / 1 then
          ((npRepeat 1 [[(2:ℚ), 3]]).getD 0 []).getD 1 0 +
            1 / (if [(5:ℚ), 0].getD 1 0 = 0 then (1:ℚ) / 10 ^ 10 else [(5:ℚ), 0].getD 1 0)
        else ((npRepeat 1 [[(2:ℚ), 3]]).getD 0 []).getD 1 0 :=
  ⟨by decide, by decide, by decide, by decide,
    loss_augment_boosts ⟨2, 1⟩ [[(2:ℚ), 3]] [0] [(5:ℚ), 0] 0 1
      (by decide) (by decide) (by decide) (by decide)⟩

/-- C9: the divisor used by `loss_augment` is never zero: every member of
the local `unary_params` copy (the first `n_states` entries of `w` with
zeros replaced by `1e-10`) is nonzero, for every weight vector `w`. -/
theorem unary_params_ne_zero (m : LatentGridCRF) (w : List ℚ) (v : ℚ)
    (hv : v ∈ m.unary_params w) : v ≠ 0 := by
  simp only [LatentGridCRF.unary_params, fixZeros, List.mem_map] at hv
  obtain ⟨u, _, rfl⟩ := hv
  by_cases hu : u = 0
  · rw [if_pos hu]
    norm_num
  · rwa [if_neg hu]

/-- Witness for C9: with `w = [0, 7]` and two states the replaced entry
`1e-10` is a member of `unary_params` and is nonzero. -/
theorem unary_params_ne_zero_witness :
    ((1:ℚ) / 10 ^ 10 ∈ LatentGridCRF.unary_params ⟨2, 1⟩ [(0:ℚ), 7]) ∧
      (1:ℚ) / 10 ^ 10 ≠ 0 := by
  have hmem : (1:ℚ) / 10 ^ 10 ∈ LatentGridCRF.unary_params ⟨2, 1⟩ [(0:ℚ), 7] := by
    norm_num [LatentGridCRF.unary_params, fixZeros, LatentGridCRF.n_states]
  exact ⟨hmem, unary_params_ne_zero ⟨2, 1⟩ [(0:ℚ), 7] _ hmem⟩

/-- C5: Python's `n_states = n_labels * n_states_per_label` in the latent
constructors, when `n_states_per_label` is given as a per-label list, is
sequence repetition. -/
def pyIntTimesList (n : Nat) (l : List Nat) : List Nat :=
  (List.replicate n l).flatten

/-- C5: at the constructor call the tests use,
`LatentGridCRF(n_labels=2, n_states_per_label=[1, 2])`, the computed
`n_states` is the list `[1, 2, 1, 2]` — neither its length nor its sum is
the per-label total `1 + 2 = 3`, so the downstream uses of `n_states` as
a state count (`np.arange(self.n_states)`, `w[:self.n_states]`) do not
see the total hidden-state count the list form calls for. -/
theorem n_states_list_form_bug :
    pyIntTimesList 2 [1, 2] = [1, 2, 1, 2] ∧
      (pyIntTimesList 2 [1, 2]).length ≠ [1, 2].sum ∧
      (pyIntTimesList 2 [1, 2]).sum ≠ [1, 2].sum := by
  decide

/-- Caller-visible buffers during a call of `inference` /
`loss_augmented_inference`: the argument `x` backs buffer id 0 and the
argument `w` buffer id 1; `next` is the id handed to the next fresh numpy
allocation.  A view of a buffer carries the buffer's id, so an in-place
write through a view is applied back to the caller's array exactly when
that id is 0 or 1. -/
structure St where
  x : List (List ℚ)
  w : List ℚ
  next : Nat

/-- A 1-D numpy array value tagged with the id of its backing buffer. -/
structure ArrV where
  base : Nat
  data : List ℚ

/-- A 2-D numpy array value tagged with the id of its backing buffer. -/
structure ArrM where
  base : Nat
  data : List (List ℚ)

/-- Allocation of a fresh 2-D array (what `np.repeat` returns). -/
def allocM (d : List (List ℚ)) (st : St) : ArrM × St :=
  (⟨st.next, d⟩, { st with next := st.next + 1 })

/-- Allocation of a fresh 1-D array (what `.copy()` returns). -/
def allocV (d : List ℚ) (st : St) : ArrV × St :=
  (⟨st.next, d⟩, { st with next := st.next + 1 })

/-- `w[:n]`: numpy basic slicing yields a view sharing `w`'s buffer. -/
def sliceV (a : ArrV) (n : Nat) : ArrV := ⟨a.base, a.data.take n⟩

/-- `.copy()` of a 1-D array: a fresh buffer with the same contents. -/
def copyV (a : ArrV) (st : St) : ArrV × St := allocV a.data st

/-- An in-place elementwise overwrite of a 1-D array.  The only 1-D view
this code ever takes is a prefix of the caller's `w`, so a write through
an array based on buffer 1 writes the new prefix back into `w`. -/
def writeV (a : ArrV) (d : List ℚ) (st : St) : ArrV × St :=
  (⟨a.base, d⟩,
    if a.base = 1 then { st with w := d ++ st.w.drop d.length } else st)

/-- An in-place elementwise overwrite of a whole 2-D array: a write
through an array based on buffer 0 replaces the caller's `x`. -/
def writeM (a : ArrM) (d : List (List ℚ)) (st : St) : ArrM × St :=
  (⟨a.base, d⟩, if a.base = 0 then { st with x := d } else st)

/-- `LatentCRF.loss_augment` at buffer level, line by line:
`x_wide = np.repeat(x, k, axis=-1)` allocates a fresh array;
`unary_params = w[:n_states].copy()` takes a view of `w` and copies it
into a fresh buffer; `unary_params[unary_params == 0] = 1e-10` writes
that copy in place; the loop `x_wide[...] += ...` writes `x_wide` in
place. -/
def loss_augment_st (m : LatentGridCRF) (h : List Nat) (st : St) : ArrM × St :=
  let r1 := allocM (npRepeat m.n_states_per_label st.x) st
  let r2 := copyV (sliceV ⟨1, r1.2.w⟩ m.n_states) r1.2
  let r3 := writeV r2.1 (fixZeros r2.1.data) r2.2
  let r4 := writeM r1.1 (augmentData m r3.1.data h r1.1.data) r3.2
  (r4.1, r4.2)

/-- `LatentGridCRF.inference(x, w)` at buffer level: repeat into a fresh
`x_wide`, then call the delegated base inference (an external oracle,
modelled as a pure function, per the oracle contract of the spec). -/
def inference_st (m : LatentGridCRF)
    (oracle : List (List ℚ) → List ℚ → List Nat) (st : St) : List Nat × St :=
  let r1 := allocM (npRepeat m.n_states_per_label st.x) st
  (oracle r1.1.data r1.2.w, r1.2)

/-- `LatentGridCRF.loss_augmented_inference(x, h, w)` at buffer level:
`loss_augment` then the delegated base inference on its result. -/
def loss_augmented_inference_st (m : LatentGridCRF)
    (oracle : List (List ℚ) → List ℚ → List Nat) (h : List Nat)
    (st : St) : List Nat × St :=
  let r := loss_augment_st m h st
  (oracle r.1.data r.2.w, r.2)

/-- C8: `inference` and `loss_augmented_inference` leave the caller's
`x` and `w` buffers untouched — every in-place write of `loss_augment`
lands on a freshly allocated buffer (ids from 2 up), never on buffer 0
(`x`) or buffer 1 (`w`) — and the value `loss_augment` hands to the
oracle is its pure result. -/
theorem inference_no_mutation (m : LatentGridCRF)
    (oracle : List (List ℚ) → List ℚ → List Nat)
    (x : List (List ℚ)) (h : List Nat) (w : List ℚ) :
    ((inference_st m oracle ⟨x, w, 2⟩).2.x = x ∧
      (inference_st m oracle ⟨x, w, 2⟩).2.w = w) ∧
      ((loss_augmented_inference_st m oracle h ⟨x, w, 2⟩).2.x = x ∧
        (loss_augmented_inference_st m oracle h ⟨x, w, 2⟩).2.w = w) ∧
      (loss_augment_st m h ⟨x, w, 2⟩).1.data = m.loss_augment x h w := by
  refine ⟨⟨rfl, rfl⟩, ⟨?_, ?_⟩, ?_⟩ <;>
    simp [loss_augmented_inference_st, loss_augment_st, allocM, allocV,
      copyV, sliceV, writeV, writeM, LatentGridCRF.loss_augment,
      LatentGridCRF.unary_params]

end PyStruct
